import Mathlib

/-!
# Verification of the brook_feeder core against its specification

Shallow embedding of the feed-aggregator core (source detection registry,
fetch/dedup pipeline, notification formatting and adaptive truncated
delivery) from the Rust sources, together with theorems settling the
specification claims.

Conventions of the embedding:
* Rust `String` / `&str` is Lean `String`.  Rust `String::len` (the UTF-8
  byte length) is `String.utf8ByteSize`; the character count is
  `String.length`.
* Network and database effects are made explicit: fetched article lists,
  the WordPress `wp-json` probe, the notification transport and the set of
  cache keys persisted in SQLite are parameters of the embedded functions.
* The SQLite dedup table `notified_articles` (with `cache_key TEXT NOT NULL
  UNIQUE`) is modelled as the list of its `cache_key` column values; the
  `INSERT OR IGNORE` statement of `mark_notified` therefore inserts only
  when the key is absent.
-/

/-! ## String helpers (Rust `str::contains` on literal patterns) -/

/-- `startsWithChars p l` : `l` starts with the pattern `p` (both as char lists). -/
def startsWithChars : List Char → List Char → Bool
  | [], _ => true
  | _ :: _, [] => false
  | p :: ps, c :: cs => decide (p = c) && startsWithChars ps cs

/-- `hasSubstrChars p l` : the pattern `p` occurs contiguously somewhere in `l`.
This is the semantics of Rust `str::contains` with a literal pattern. -/
def hasSubstrChars (pat : List Char) : List Char → Bool
  | [] => startsWithChars pat []
  | c :: cs => startsWithChars pat (c :: cs) || hasSubstrChars pat cs

/-- Rust `s.contains(pat)` for strings. -/
def strContains (s pat : String) : Bool :=
  hasSubstrChars pat.data s.data

/-! ## Domain model (`src/domain`) -/

/-- `FeedType` from `src/domain/feed.rs`. -/
inductive FeedType
  | rss
  | atom
  | json
deriving DecidableEq, Repr

/-- `SourceType` from `src/domain/feed.rs`: one strategy per source kind. -/
inductive SourceType
  | rssAtom
  | youtube
  | mastodon
  | wordpress
  | blogger
deriving DecidableEq, Repr

/-- `Feed` from `src/domain/feed.rs`. -/
structure Feed where
  id : Option Int
  url : String
  feed_url : String
  title : String
  feed_type : FeedType
  source_type : SourceType
deriving DecidableEq, Repr

/-- `Article` from `src/domain/article.rs`. -/
structure Article where
  id : String
  title : String
  content : Option String
  links : List String
  published : Option String
deriving DecidableEq, Repr

/-- `Article::cache_key` (src/domain/article.rs lines 23-25):
`format!("{}:{}", feed_title, self.id)`. -/
def Article.cache_key (a : Article) (feed_title : String) : String :=
  feed_title ++ ":" ++ a.id

/-- `Notification` from `src/domain/notification.rs`. -/
structure Notification where
  feed_title : String
  article_title : String
  text : String
  links : List String
deriving DecidableEq, Repr

/-- `Notification::from_article` (src/domain/notification.rs lines 12-21):
the body text is the article content, defaulted to the empty string. -/
def Notification.from_article (feed : Feed) (a : Article) : Notification :=
  { feed_title := feed.title
    article_title := a.title
    text := a.content.getD ""
    links := a.links }

/-- `Notification::format` (src/domain/notification.rs lines 24-38):
`"{feedTitle} {articleTitle}"`, then `": "` plus the text when the text is
nonempty, then `" "` plus the space-joined links when there are links. -/
def Notification.format (n : Notification) : String :=
  let message := n.feed_title ++ " " ++ n.article_title
  let message := if n.text.isEmpty then message else message ++ ": " ++ n.text
  let message :=
    if n.links.isEmpty then message
    else message ++ " " ++ String.intercalate " " n.links
  message

/-! ## Dedup store (`src/storage/sqlite/article_cache_repository.rs`)

The store state is the list of `cache_key` values in the `notified_articles`
table.  The schema (src/storage/sqlite/connection.rs) declares
`cache_key TEXT NOT NULL UNIQUE`, so `INSERT OR IGNORE` adds a row exactly
when the key is not present yet.  Database errors are external failures and
are not modelled: each operation returns its result state/value. -/

/-- `SqliteArticleCacheRepository::mark_notified` (lines 25-32):
`INSERT OR IGNORE INTO notified_articles (cache_key, ...)`. -/
def mark_notified (store : List String) (cache_key : String) : List String :=
  if store.contains cache_key then store else store ++ [cache_key]

/-- `SqliteArticleCacheRepository::get_unnotified` (lines 34-62): empty input
short-circuits to `[]`; otherwise `notified` is the set of table keys that
occur among `cache_keys` (the SQL `IN` query) and the result keeps the input
keys that are not among `notified`, in input order. -/
def get_unnotified (store : List String) (cache_keys : List String) : List String :=
  if cache_keys.isEmpty then []
  else
    let notified := store.filter (fun k => cache_keys.contains k)
    cache_keys.filter (fun k => !(notified.contains k))

/-- `FetchService::fetch_unnotified` (src/services/fetch_service.rs lines
62-82), with the registry fetch result passed in as `articles` (the network
fetch is an external effect).  Returns `(total_count, unnotified_articles)`. -/
def fetch_unnotified (store : List String) (feed_title : String)
    (articles : List Article) : Nat × List Article :=
  let cache_keys := articles.map (fun a => a.cache_key feed_title)
  let unnotified_keys := get_unnotified store cache_keys
  (articles.length,
    articles.filter (fun a => unnotified_keys.contains (a.cache_key feed_title)))

/-- `FetchService::mark_notified` (src/services/fetch_service.rs lines
85-97): marks each article's cache key in turn. -/
def fetch_service_mark_notified (store : List String) (feed_title : String)
    (articles : List Article) : List String :=
  articles.foldl (fun st a => mark_notified st (a.cache_key feed_title)) store

/-! ## Feed sources (`src/sources`) -/

/-- `YouTubeSource::can_handle` (src/sources/youtube.rs lines 122-127):
four substring checks on the URL. -/
def youtubeCanHandle (url : String) : Bool :=
  strContains url "youtube.com/channel/"
    || strContains url "youtube.com/@"
    || strContains url "youtube.com/c/"
    || strContains url "youtube.com/user/"

/-- After `http://` or `https://`: consume the first character of `[^/]+`
(the host part of the Mastodon pattern); fails immediately on `/`. -/
def mastodonHostStart : List Char → Bool
  | [] => false
  | c :: cs => if c = '/' then false else mastodonHostRest cs
where
  /-- At least one host character consumed; the first `/` must be followed
  by `@` and one more non-`/` character for the pattern to match here. -/
  mastodonHostRest : List Char → Bool
  | [] => false
  | c :: cs =>
    if c = '/' then
      match cs with
      | '@' :: d :: _ => decide (d ≠ '/')
      | _ => false
    else mastodonHostRest cs

/-- Consume the literal `lit` from the front of `l`, returning the rest. -/
def afterLiteral : List Char → List Char → Option (List Char)
  | [], rest => some rest
  | _ :: _, [] => none
  | p :: ps, c :: cs => if p = c then afterLiteral ps cs else none

/-- A match of `https?://[^/]+/@[^/]+` starting exactly at `l`. -/
def mastodonMatchHere (l : List Char) : Bool :=
  (match afterLiteral "http://".data l with
   | some rest => mastodonHostStart rest
   | none => false)
  ||
  (match afterLiteral "https://".data l with
   | some rest => mastodonHostStart rest
   | none => false)

/-- Unanchored match: the regex `is_match` succeeds iff a match starts at
some suffix of the input.  (Inside one match the host portion `[^/]+`
cannot contain `/`, so the `/` of `/@` is the first `/` after the scheme;
all other candidate positions are covered by the suffix scan.) -/
def mastodonAnyMatch : List Char → Bool
  | [] => mastodonMatchHere []
  | c :: cs => mastodonMatchHere (c :: cs) || mastodonAnyMatch cs

/-- `MastodonSource::can_handle` (src/sources/mastodon.rs lines 104-113):
reject YouTube domains, then match the regex `https?://[^/]+/@[^/]+`. -/
def mastodonCanHandle (url : String) : Bool :=
  if strContains url "youtube.com" || strContains url "youtu.be" then false
  else mastodonAnyMatch url.data

/-- `BloggerSource::can_handle` (src/sources/blogger.rs): contains
`.blogspot.com`. -/
def bloggerCanHandle (url : String) : Bool :=
  strContains url ".blogspot.com"

/-- `WordPressSource::can_handle` (src/sources/wordpress.rs lines 80-88):
explicit `wordpress.com` URLs, otherwise a network probe of
`<origin>/wp-json/`; the probe outcome is the external parameter `probe`. -/
def wordpressCanHandle (probe : String → Bool) (url : String) : Bool :=
  strContains url "wordpress.com" || probe url

/-- `RssAtomSource::can_handle` (src/sources/rss_atom.rs lines 137-140):
the universal fallback. -/
def rssAtomCanHandle (_ : String) : Bool :=
  true

/-- One registered strategy: its source kind and its `can_handle` test.
(`validate`/`fetch_articles` are network effects, modelled separately.) -/
structure SourceStrategy where
  kind : SourceType
  canHandle : String → Bool

/-- `SourceRegistry::new` (src/sources/registry.rs lines 14-28): the fixed
registration order YouTube, Mastodon, Blogger, WordPress, Generic. -/
def sourceRegistry (probe : String → Bool) : List SourceStrategy :=
  [⟨SourceType.youtube, youtubeCanHandle⟩,
   ⟨SourceType.mastodon, mastodonCanHandle⟩,
   ⟨SourceType.blogger, bloggerCanHandle⟩,
   ⟨SourceType.wordpress, wordpressCanHandle probe⟩,
   ⟨SourceType.rssAtom, rssAtomCanHandle⟩]

/-- `SourceRegistry::find_source` (src/sources/registry.rs lines 35-40):
first strategy whose `can_handle` accepts the URL. -/
def find_source (probe : String → Bool) (url : String) : Option SourceStrategy :=
  (sourceRegistry probe).find? (fun s => s.canHandle url)

/-- `SourceRegistry::fetch_articles` dispatch (src/sources/registry.rs lines
52-61): the strategy is selected by the feed's stored `source_type`, not by
`can_handle` on the URL. -/
def fetch_dispatch (probe : String → Bool) (feed : Feed) : Option SourceStrategy :=
  (sourceRegistry probe).find? (fun s => s.kind == feed.source_type)

/-! ## Notification service (`src/services/notification_service.rs`)

The channel transport (`channels::ChannelClient::send_message`) is external:
it is a parameter giving, for each attempt index and formatted message, one
of the three outcomes the service distinguishes. -/

/-- Outcome of one `send_message` call: success, the distinct
`ChannelError::PayloadTooLarge` signal, or any other transport error. -/
inductive SendResult
  | ok
  | tooLarge
  | otherErr
deriving DecidableEq, Repr

/-- Final outcome of `NotificationService::send`: a delivery whose body
text was `text`, a non-size transport error (propagated immediately), or a
size rejection of the final empty-text attempt (propagated by `?`). -/
inductive SendFinal
  | delivered (text : String)
  | failedOther
  | failedSize
deriving DecidableEq, Repr

/-- `truncate_to_char_boundary` (src/services/notification_service.rs lines
74-76): `s.chars().take(max_chars).collect()`. -/
def truncate_to_char_boundary (s : String) (max_chars : Nat) : String :=
  (s.data.take max_chars).asString

/-- The `while high > 0` retry loop of `NotificationService::send` (lines
36-56), including the final empty-text attempt after the loop.  `high` is
the loop bound (initially the byte length of the text), `k` the number of
transport attempts already made; the result carries the total attempt
count. -/
def sendLoop (transport : Nat → String → SendResult) (n : Notification)
    (high k : Nat) : SendFinal × Nat :=
  if h : 0 < high then
    match transport k (Notification.format
        { n with text := truncate_to_char_boundary n.text (high / 2) }) with
    | SendResult.ok =>
      (SendFinal.delivered (truncate_to_char_boundary n.text (high / 2)), k + 1)
    | SendResult.tooLarge => sendLoop transport n (high / 2) (k + 1)
    | SendResult.otherErr => (SendFinal.failedOther, k + 1)
  else
    match transport k (Notification.format { n with text := "" }) with
    | SendResult.ok => (SendFinal.delivered "", k + 1)
    | SendResult.tooLarge => (SendFinal.failedSize, k + 1)
    | SendResult.otherErr => (SendFinal.failedOther, k + 1)
termination_by high
decreasing_by exact Nat.div_lt_self h (by decide)

/-- `NotificationService::send` (lines 23-57): try the full message first;
on `PayloadTooLarge` enter the halving loop with
`high = notification.text.len()` (the UTF-8 byte length).  Every attempt
formats the (possibly truncated) notification with `Notification::format`. -/
def notification_send (transport : Nat → String → SendResult)
    (n : Notification) : SendFinal × Nat :=
  match transport 0 (Notification.format { n with text := n.text }) with
  | SendResult.ok => (SendFinal.delivered n.text, 1)
  | SendResult.otherErr => (SendFinal.failedOther, 1)
  | SendResult.tooLarge => sendLoop transport n n.text.utf8ByteSize 1

/-! ## Article extraction (`src/sources/rss_atom.rs`, `src/sources/mastodon.rs`)

The feed-document parser (`feed_rs`) is an external collaborator; its output
is modelled as a list of entries.  Timestamps are carried as their already
rendered `to_rfc3339` strings, since `chrono` is external and both fetch
paths render them identically. -/

/-- One parsed feed entry as both fetch paths consume it. -/
structure FeedEntry where
  id : String
  title : Option String
  contentBody : Option String
  summary : Option String
  links : List String
  published : Option String
  updated : Option String
deriving DecidableEq, Repr

/-- Per-entry article construction of `RssAtomSource::fetch_articles`
(src/sources/rss_atom.rs lines 164-192): missing title becomes
`"Untitled"`, content is intentionally not extracted, timestamp is
`published` else `updated`. -/
def rssAtomArticle (e : FeedEntry) : Article :=
  { id := e.id
    title := e.title.getD "Untitled"
    content := none
    links := e.links
    published := e.published.or e.updated }

/-- `RssAtomSource::fetch_articles` applied to a parsed feed document. -/
def rssAtomArticles (entries : List FeedEntry) : List Article :=
  entries.map rssAtomArticle

/-- The characters strictly before the last space of `l` (the byte slice
`text[..pos]` for `pos = text.rfind(' ')`; a space is one byte, so the
index is always a character boundary). -/
def beforeLastSpace : List Char → Option (List Char)
  | [] => none
  | c :: cs =>
    match beforeLastSpace cs with
    | some r => some (c :: r)
    | none => if c = ' ' then some [] else none

/-- Split `l` at byte offset `n`: `some (pre, rest)` when `n` is a UTF-8
character boundary of `l`, `none` otherwise (where the Rust slice
`&text[..n]` would panic). -/
def splitAtByte : Nat → List Char → Option (List Char × List Char)
  | 0, l => some ([], l)
  | n + 1, [] => none
  | n + 1, c :: cs =>
    if c.utf8Size ≤ n + 1 then
      (splitAtByte (n + 1 - c.utf8Size) cs).map (fun p => (c :: p.1, p.2))
    else none

/-- `MastodonSource::truncate_for_title` (src/sources/mastodon.rs lines
51-62): byte-length comparison, byte slicing at `max_len`, preferring a
break at the last space of the slice, appending `"..."`.  `none` models the
panic of `&text[..max_len]` on a non-boundary offset. -/
def truncate_for_title (text : String) (max_len : Nat) : Option String :=
  if text.utf8ByteSize ≤ max_len then some text
  else
    match splitAtByte max_len text.data with
    | none => none
    | some (pre, _) =>
      match beforeLastSpace pre with
      | some before => some (before.asString ++ "...")
      | none => some (pre.asString ++ "...")

/-- The title fallback of `MastodonSource::fetch_articles` (lines 144-159)
for entries without a nonempty title: extract text from the HTML content or
summary (`html_to_text` builds on the external `scraper` parser and is the
parameter `htmlToText`), default to `"Untitled"` when empty, otherwise
truncate to 200 bytes for use as a title. -/
def mastodonFallbackTitle (htmlToText : String → String)
    (e : FeedEntry) : Option String :=
  let html_content := (e.contentBody.or e.summary).getD ""
  let text := htmlToText html_content
  if text.isEmpty then some "Untitled" else truncate_for_title text 200

/-- Per-entry article construction of `MastodonSource::fetch_articles`
(src/sources/mastodon.rs lines 126-175): a present and nonempty entry title
is used as-is, otherwise the HTML-derived fallback title. -/
def mastodonArticle (htmlToText : String → String)
    (e : FeedEntry) : Option Article :=
  match e.title.filter (fun t => !t.isEmpty) with
  | some t =>
    some { id := e.id, title := t, content := none, links := e.links,
           published := e.published.or e.updated }
  | none =>
    (mastodonFallbackTitle htmlToText e).map (fun t =>
      { id := e.id, title := t, content := none, links := e.links,
        published := e.published.or e.updated })

/-- `MastodonSource::fetch_articles` applied to a parsed feed document (the
source fetches and parses the feed itself rather than delegating to the
generic source); `none` models a panic while building some entry's title. -/
def mastodonArticles (htmlToText : String → String) :
    List FeedEntry → Option (List Article)
  | [] => some []
  | e :: es =>
    match mastodonArticle htmlToText e with
    | none => none
    | some a => (mastodonArticles htmlToText es).map (fun rest => a :: rest)

/-! ## The `run` command (`src/main.rs`, `src/cli/commands.rs`)

`Commands::Run` (src/cli/commands.rs lines 39-48) carries both a `dry_run`
and a `skip_notify` flag.  `run()` in src/main.rs (line 42) matches
`Commands::Run { dry_run }` and forwards only `dry_run` to `cmd_run`; the
`skip_notify` field is never read.  The per-feed body of `cmd_run`
(src/main.rs lines 244-276) is embedded with the delivery outcome of each
`NotificationService::send` call given by `sendOk`. -/

/-- The two flags of the `run` subcommand. -/
structure RunFlags where
  dry_run : Bool
  skip_notify : Bool
deriving DecidableEq, Repr

/-- Per-feed body of `cmd_run`: in dry-run mode no send call is made and
nothing is marked; otherwise every article gets one
`NotificationService::send` call and exactly the successfully delivered
articles are marked afterwards.  Returns the number of delivery attempts
(send calls) and the dedup store after marking. -/
def cmd_run_feed (dry_run : Bool) (feed : Feed) (articles : List Article)
    (sendOk : Notification → Bool) (store : List String) : Nat × List String :=
  if dry_run then (0, store)
  else
    let notified_articles :=
      articles.filter (fun a => sendOk (Notification.from_article feed a))
    (articles.length,
      fetch_service_mark_notified store feed.title notified_articles)

/-- The `run` dispatch in `main` applied to one feed: only `flags.dry_run`
reaches `cmd_run`; `flags.skip_notify` is ignored. -/
def run_command (flags : RunFlags) (feed : Feed) (articles : List Article)
    (sendOk : Notification → Bool) (store : List String) : Nat × List String :=
  cmd_run_feed flags.dry_run feed articles sendOk store

/-! ## General lemmas -/

/-- `List.contains` on strings is decidable membership. -/
theorem listContains_eq (l : List String) (a : String) :
    l.contains a = decide (a ∈ l) := by
  induction l with
  | nil => simp
  | cons b bs ih => simp [List.contains_cons, ih]

/-- Strings with equal character lists are equal. -/
theorem stringDataInj (a b : String) (h : a.data = b.data) : a = b := by
  cases a; cases b; cases h; rfl

/-! ## C6 — idempotent `mark_notified` -/

/-- C6: `mark_notified` is idempotent on the dedup store: a second call with
the same cache key succeeds (the embedded operation is total, mirroring the
`INSERT OR IGNORE` no-op) and leaves the set of marked keys unchanged:
no duplicate entry and no double count. -/
theorem mark_notified_idempotent (store : List String) (key : String) :
    mark_notified (mark_notified store key) key = mark_notified store key := by
  by_cases hm : key ∈ store
  · simp [mark_notified, listContains_eq, hm]
  · simp [mark_notified, listContains_eq, hm]

/-! ## C7 — notification formatting -/

/-- C7: `Notification::format` produces
`"<feedTitle> <articleTitle>: <text> <links joined by space>"`, with the
colon-plus-text segment omitted for empty text and the space-plus-links
segment omitted for an empty link list; in particular the spec's example
notification formats to `"Tech Blog New Features: details here https://x"`. -/
theorem notification_format_spec :
    (∀ n : Notification,
      n.format = n.feed_title ++ " " ++ n.article_title
        ++ (if n.text.isEmpty then "" else ": " ++ n.text)
        ++ (if n.links.isEmpty then ""
            else " " ++ String.intercalate " " n.links))
    ∧ Notification.format
        ⟨"Tech Blog", "New Features", "details here", ["https://x"]⟩
      = "Tech Blog New Features: details here https://x" := by
  constructor
  · intro n
    by_cases ht : n.text.isEmpty <;> by_cases hl : n.links.isEmpty <;>
      simp [Notification.format, ht, hl, String.append_assoc]
  · decide

/-! ## C3 — cache-key determinism and (non-)injectivity -/

/-- If two decompositions around a separator that occurs in neither left
part agree, the parts agree. -/
theorem sepSplitInj (sep : Char) :
    ∀ (l1 l2 r1 r2 : List Char), sep ∉ l1 → sep ∉ l2 →
      l1 ++ sep :: r1 = l2 ++ sep :: r2 → l1 = l2 ∧ r1 = r2 := by
  intro l1
  induction l1 with
  | nil =>
    intro l2 r1 r2 _ h2 he
    cases l2 with
    | nil => simpa using he
    | cons d ds =>
      simp only [List.nil_append, List.cons_append, List.cons.injEq] at he
      exact absurd (he.1 ▸ List.mem_cons_self d ds) h2
  | cons c cs ih =>
    intro l2 r1 r2 h1 h2 he
    cases l2 with
    | nil =>
      simp only [List.nil_append, List.cons_append, List.cons.injEq] at he
      exact absurd (he.1 ▸ List.mem_cons_self c cs) (fun hm => h1 hm)
    | cons d ds =>
      simp only [List.cons_append, List.cons.injEq] at he
      obtain ⟨hcd, htail⟩ := he
      have h1' : sep ∉ cs := fun hm => h1 (List.mem_cons_of_mem c hm)
      have h2' : sep ∉ ds := fun hm => h2 (List.mem_cons_of_mem d hm)
      obtain ⟨hl, hr⟩ := ih ds r1 r2 h1' h2' htail
      exact ⟨by rw [hcd, hl], hr⟩

/-- Counterexample to C3 as stated: the cache keys of article id `"c"`
under feed title `"a:b"` and of article id `"b:c"` under feed title `"a"`
coincide (`"a:b:c"`), yet the (title, id) pairs differ — the flat
`title ++ ":" ++ id` construction is not injective when titles may
contain `:`. -/
theorem cache_key_not_injective :
    Article.cache_key ⟨"c", "t", none, [], none⟩ "a:b"
      = Article.cache_key ⟨"b:c", "t", none, [], none⟩ "a"
    ∧ ¬(("a:b" : String) = "a" ∧ ("c" : String) = "b:c") := by
  constructor
  · decide
  · decide

/-- C3 (amended): the cache key is deterministic, and it is injective over
(title, id) pairs whose feed titles contain no `:` character. -/
theorem cache_key_deterministic_and_inj (a b : Article) (t u : String)
    (hta : (':' : Char) ∉ t.data) (htb : (':' : Char) ∉ u.data) :
    (t = u → a.id = b.id → a.cache_key t = b.cache_key u)
    ∧ (a.cache_key t = b.cache_key u → t = u ∧ a.id = b.id) := by
  constructor
  · intro h1 h2
    simp [Article.cache_key, h1, h2]
  · intro h
    have hd : t.data ++ ':' :: a.id.data = u.data ++ ':' :: b.id.data := by
      have := congrArg String.data h
      simpa [Article.cache_key, String.data_append] using this
    obtain ⟨h1, h2⟩ := sepSplitInj ':' t.data u.data a.id.data b.id.data hta htb hd
    exact ⟨stringDataInj t u h1, stringDataInj a.id b.id h2⟩

/-- Witness for C3's amended theorem at concrete colon-free titles. -/
theorem cache_key_deterministic_and_inj_witness :
    ((':' : Char) ∉ ("Feed" : String).data)
    ∧ (("Feed" : String) = "Feed" ∧ ("1" : String) = "1") := by
  refine ⟨by decide, ?_⟩
  have h := cache_key_deterministic_and_inj
    ⟨"1", "t", none, [], none⟩ ⟨"1", "t", none, [], none⟩ "Feed" "Feed"
    (by decide) (by decide)
  exact ⟨(h.2 (by decide)).1, (h.2 (by decide)).2⟩

/-! ## C2 — the fetch/dedup pipeline returns exactly the unmarked articles -/

/-- `get_unnotified` is filtering the input keys by non-membership in the
store, preserving input order. -/
theorem get_unnotified_eq (store keys : List String) :
    get_unnotified store keys = keys.filter (fun k => !(store.contains k)) := by
  unfold get_unnotified
  by_cases hk : keys.isEmpty
  · have : keys = [] := by simpa [List.isEmpty_iff] using hk
    simp [this]
  · simp only [hk, if_false, Bool.false_eq_true]
    apply List.filter_congr
    intro k hkmem
    have hmem : (store.filter (fun x => keys.contains x)).contains k
        = store.contains k := by
      simp only [listContains_eq]
      by_cases hs : k ∈ store
      · simp [List.mem_filter, hs, listContains_eq, hkmem]
      · simp [List.mem_filter, hs]
    rw [hmem]

/-- C2: `fetch_unnotified` returns exactly the fetched articles whose cache
key is not yet marked in the dedup store, in source order, and
`get_unnotified` returns exactly the input keys minus the marked ones. -/
theorem fetch_unnotified_spec (store : List String) (feed_title : String)
    (articles : List Article) (keys : List String) :
    (fetch_unnotified store feed_title articles).2
      = articles.filter (fun a => !(store.contains (a.cache_key feed_title)))
    ∧ get_unnotified store keys
      = keys.filter (fun k => !(store.contains k)) := by
  refine ⟨?_, get_unnotified_eq store keys⟩
  unfold fetch_unnotified
  simp only [get_unnotified_eq]
  apply List.filter_congr
  intro a hamem
  have hkey : a.cache_key feed_title
      ∈ articles.map (fun a => a.cache_key feed_title) :=
    List.mem_map_of_mem _ hamem
  simp only [listContains_eq]
  by_cases hs : a.cache_key feed_title ∈ store
  · simp [List.mem_filter, hs, listContains_eq]
  · simp [List.mem_filter, hs, listContains_eq, hkey]

/-! ## C4 — registry detection priority and the Mastodon YouTube-exclusion -/

/-- A pattern starts with itself (plus anything). -/
theorem startsWithChars_self_append (pat rest : List Char) :
    startsWithChars pat (pat ++ rest) = true := by
  induction pat with
  | nil => rfl
  | cons c cs ih => simp [startsWithChars, ih]

/-- A prefix occurrence is an occurrence. -/
theorem hasSubstrChars_of_starts (pat l : List Char)
    (h : startsWithChars pat l = true) : hasSubstrChars pat l = true := by
  cases l with
  | nil => simpa [hasSubstrChars] using h
  | cons c cs => simp [hasSubstrChars, h]

/-- A string that literally contains the pattern makes `hasSubstrChars`
true. -/
theorem hasSubstrChars_of_append (pat l1 l2 : List Char) :
    hasSubstrChars pat (l1 ++ (pat ++ l2)) = true := by
  induction l1 with
  | nil => exact hasSubstrChars_of_starts pat _ (startsWithChars_self_append pat l2)
  | cons c cs ih =>
    simp only [List.cons_append, hasSubstrChars, Bool.or_eq_true]
    exact Or.inr ih

/-- Rust `(u1 ++ pat ++ u2).contains(pat)` is true. -/
theorem strContains_append (u1 pat u2 : String) :
    strContains (u1 ++ pat ++ u2) pat = true := by
  unfold strContains
  rw [String.data_append, String.data_append, List.append_assoc]
  exact hasSubstrChars_of_append pat.data u1.data u2.data

/-- C4: the default registry detects `https://mastodon.social/@user` as
Mastodon (never reaching the generic fallback) and
`https://www.youtube.com/@channel` as YouTube, for any outcome of the
WordPress network probe; and the Mastodon matcher rejects every URL
containing the `youtube.com` or `youtu.be` domain. -/
theorem registry_detection_priority (probe : String → Bool)
    (u1 u2 v1 v2 : String) :
    (find_source probe "https://mastodon.social/@user").map (fun s => s.kind)
        = some SourceType.mastodon
    ∧ (find_source probe "https://www.youtube.com/@channel").map (fun s => s.kind)
        = some SourceType.youtube
    ∧ mastodonCanHandle (u1 ++ "youtube.com" ++ u2) = false
    ∧ mastodonCanHandle (v1 ++ "youtu.be" ++ v2) = false := by
  refine ⟨rfl, rfl, ?_, ?_⟩
  · have hc := strContains_append u1 "youtube.com" u2
    simp [mastodonCanHandle, hc]
  · have hc := strContains_append v1 "youtu.be" v2
    simp [mastodonCanHandle, hc]

/-! ## C5 — fetch dispatch by stored source kind -/

/-- C5: `fetch_articles` dispatches by the feed's stored source kind: the
registry holds the five pairwise-distinct kinds in fixed order, the
dispatched strategy exists and carries exactly the stored kind, changing
only the feed's URL never changes the dispatched strategy (no `can_handle`
re-run on the stored URL), and two feeds with equal stored kinds dispatch
to the same strategy. -/
theorem fetch_dispatch_by_stored_kind (probe : String → Bool) (f1 f2 : Feed)
    (u : String) :
    ((sourceRegistry probe).map (fun s => s.kind)
        = [SourceType.youtube, SourceType.mastodon, SourceType.blogger,
           SourceType.wordpress, SourceType.rssAtom])
    ∧ (∃ s, fetch_dispatch probe f1 = some s ∧ s.kind = f1.source_type)
    ∧ fetch_dispatch probe { f1 with url := u } = fetch_dispatch probe f1
    ∧ (f1.source_type = f2.source_type →
        fetch_dispatch probe f1 = fetch_dispatch probe f2) := by
  obtain ⟨i1, url1, fu1, t1, fty1, sty1⟩ := f1
  refine ⟨rfl, ?_, rfl, ?_⟩
  · cases sty1 <;> exact ⟨_, rfl, rfl⟩
  · intro h
    exact congrArg (fun k => (sourceRegistry probe).find? (fun s => s.kind == k)) h

/-- Witness for C5 at two concrete YouTube feeds with different URLs. -/
theorem fetch_dispatch_by_stored_kind_witness :
    ((Feed.mk none "https://a" "https://a/feed" "A" FeedType.rss
        SourceType.youtube).source_type
      = (Feed.mk none "https://b" "https://b/feed" "B" FeedType.rss
        SourceType.youtube).source_type)
    ∧ fetch_dispatch (fun _ => false)
        (Feed.mk none "https://a" "https://a/feed" "A" FeedType.rss
          SourceType.youtube)
      = fetch_dispatch (fun _ => false)
        (Feed.mk none "https://b" "https://b/feed" "B" FeedType.rss
          SourceType.youtube) :=
  ⟨rfl,
    (fetch_dispatch_by_stored_kind (fun _ => false)
      (Feed.mk none "https://a" "https://a/feed" "A" FeedType.rss
        SourceType.youtube)
      (Feed.mk none "https://b" "https://b/feed" "B" FeedType.rss
        SourceType.youtube) "u").2.2.2 rfl⟩

/-! ## C8 — the skip-notify mode is declared but never implemented

`Commands::Run` declares `skip_notify` ("Skip notifications but still mark
articles as seen in the database", src/cli/commands.rs lines 44-47) and
`tests/cli_tests.rs` expects a "skip-notify mode" behaviour, but `run()` in
src/main.rs line 42 matches only the `dry_run` field and `cmd_run` has no
skip-notify branch: delivery is attempted for every article whenever
`dry_run` is false, and nothing is marked without a successful delivery. -/

/-- C8 (code bug): with `--skip-notify` set (and not dry-run), one
unnotified article and a transport that fails, the run command performs one
delivery attempt and marks nothing — instead of marking the article's key
with no delivery attempt; and the outcome never depends on the
`skip_notify` flag at all. -/
theorem run_skip_notify_not_implemented :
    run_command ⟨false, true⟩
        (Feed.mk (some 1) "https://a" "https://a/feed" "A" FeedType.rss
          SourceType.rssAtom)
        [Article.mk "1" "T" none [] none] (fun _ => false) []
      = (1, [])
    ∧ (∀ (d : Bool) (feed : Feed) (articles : List Article)
        (sendOk : Notification → Bool) (store : List String),
        run_command ⟨d, true⟩ feed articles sendOk store
          = run_command ⟨d, false⟩ feed articles sendOk store) :=
  ⟨rfl, fun _ _ _ _ _ => rfl⟩

/-! ## C9 — Mastodon fetch versus the generic fetch -/

/-- Fields of a `mastodonArticle` relative to the generic per-entry
construction: ids, (absent) content, links and timestamps always agree with
`rssAtomArticle`; the title agrees whenever the entry carries a nonempty
title. -/
theorem mastodonArticle_fields (htmlToText : String → String)
    (e : FeedEntry) (a : Article)
    (h : mastodonArticle htmlToText e = some a) :
    a.id = (rssAtomArticle e).id
    ∧ a.content = (rssAtomArticle e).content
    ∧ a.links = (rssAtomArticle e).links
    ∧ a.published = (rssAtomArticle e).published
    ∧ (∀ t, e.title = some t → t.isEmpty = false →
        a.title = t ∧ (rssAtomArticle e).title = t) := by
  unfold mastodonArticle at h
  cases hf : e.title.filter (fun t => !t.isEmpty) with
  | some t1 =>
    rw [hf] at h
    cases h
    refine ⟨rfl, rfl, rfl, rfl, ?_⟩
    intro t ht hne
    rw [ht] at hf
    simp only [Option.filter, hne, Bool.not_false, if_pos, Option.some.injEq] at hf
    refine ⟨hf.symm, ?_⟩
    simp [rssAtomArticle, ht]
  | none =>
    rw [hf] at h
    simp only [Option.map_eq_some'] at h
    obtain ⟨ft, _, rfl⟩ := h
    refine ⟨rfl, rfl, rfl, rfl, ?_⟩
    intro t ht hne
    rw [ht] at hf
    simp [Option.filter, hne] at hf

/-- Counterexample to C9 as stated: for an entry whose title is present but
empty, `MastodonSource::fetch_articles` derives a fallback title (here
`"Untitled"`: the entry has no content or summary, and `html_to_text` maps
the empty fragment to the empty string, per the repository's own
`test_html_to_text_empty`), while `RssAtomSource::fetch_articles` keeps the
empty title verbatim — the two fetch paths do not return the same list. -/
theorem mastodon_fetch_differs_from_generic :
    mastodonArticles (fun _ => "")
        [FeedEntry.mk "1" (some "") none none [] none none]
      ≠ some (rssAtomArticles
        [FeedEntry.mk "1" (some "") none none [] none none]) := by
  decide

/-- C9 (amended): whenever the Mastodon fetch succeeds on a parsed feed
document it returns the same number of articles as the generic fetch, with
identical ids, contents, links and timestamps position by position, and an
identical title for every entry carrying a nonempty title; only the titles
of entries without a nonempty title differ (HTML-derived fallback instead
of the generic `"Untitled"`/verbatim behaviour). -/
theorem mastodon_fetch_refines_generic (htmlToText : String → String)
    (entries : List FeedEntry) (arts : List Article)
    (h : mastodonArticles htmlToText entries = some arts) :
    arts.map (fun a => (a.id, a.content, a.links, a.published))
      = (rssAtomArticles entries).map
          (fun a => (a.id, a.content, a.links, a.published))
    ∧ List.Forall₂
        (fun (e : FeedEntry) (a : Article) =>
          ∀ t, e.title = some t → t.isEmpty = false →
            a.title = t ∧ (rssAtomArticle e).title = t)
        entries arts := by
  induction entries generalizing arts with
  | nil =>
    cases h
    exact ⟨rfl, List.Forall₂.nil⟩
  | cons e es ih =>
    unfold mastodonArticles at h
    cases hme : mastodonArticle htmlToText e with
    | none => rw [hme] at h; cases h
    | some a =>
      rw [hme] at h
      simp only [Option.map_eq_some'] at h
      obtain ⟨rest, hrest, rfl⟩ := h
      obtain ⟨ihmap, ihfa⟩ := ih rest hrest
      obtain ⟨hid, hco, hli, hpu, hti⟩ := mastodonArticle_fields htmlToText e a hme
      refine ⟨?_, List.Forall₂.cons hti ihfa⟩
      simp only [rssAtomArticles, List.map_cons, List.map_map] at ihmap ⊢
      rw [hid, hco, hli, hpu]
      simpa [rssAtomArticles] using ihmap

/-- Witness for C9's amended theorem at a concrete titled entry. -/
theorem mastodon_fetch_refines_generic_witness :
    ([Article.mk "1" "T" none ["l"] (some "p")].map
        (fun a => (a.id, a.content, a.links, a.published))
      = (rssAtomArticles
          [FeedEntry.mk "1" (some "T") none none ["l"] (some "p") none]).map
          (fun a => (a.id, a.content, a.links, a.published)))
    ∧ List.Forall₂
        (fun (e : FeedEntry) (a : Article) =>
          ∀ t, e.title = some t → t.isEmpty = false →
            a.title = t ∧ (rssAtomArticle e).title = t)
        [FeedEntry.mk "1" (some "T") none none ["l"] (some "p") none]
        [Article.mk "1" "T" none ["l"] (some "p")] :=
  mastodon_fetch_refines_generic (fun s => s)
    [FeedEntry.mk "1" (some "T") none none ["l"] (some "p") none]
    [Article.mk "1" "T" none ["l"] (some "p")] rfl

/-! ## C1 — truncation convergence of `NotificationService::send` -/

/-- Convergence of the halving loop: when the transport accepts exactly the
attempts whose body text has at most `N` characters, every loop entry ends
in a delivery of a character-boundary prefix of the original text of at
most `N` characters. -/
theorem sendLoop_converges (transport : Nat → String → SendResult)
    (n : Notification) (N : Nat)
    (H : ∀ (k : Nat) (t : String),
      transport k (Notification.format { n with text := t })
        = if t.length ≤ N then SendResult.ok else SendResult.tooLarge) :
    ∀ high k, ∃ t m,
      (sendLoop transport n high k).1 = SendFinal.delivered t
      ∧ t.data = n.text.data.take m ∧ t.length ≤ N := by
  intro high
  induction high using Nat.strong_induction_on with
  | _ high ih =>
    intro k
    rw [sendLoop]
    by_cases hp : 0 < high
    · rw [dif_pos hp]
      have ht := H k (truncate_to_char_boundary n.text (high / 2))
      by_cases hle : (truncate_to_char_boundary n.text (high / 2)).length ≤ N
      · rw [if_pos hle] at ht
        simp only [ht]
        exact ⟨truncate_to_char_boundary n.text (high / 2), high / 2, rfl, rfl, hle⟩
      · rw [if_neg hle] at ht
        simp only [ht]
        exact ih (high / 2) (Nat.div_lt_self hp (by decide)) (k + 1)
    · rw [dif_neg hp]
      have ht := H k ""
      rw [if_pos (show ("" : String).length ≤ N from Nat.zero_le N)] at ht
      simp only [ht]
      exact ⟨"", 0, rfl, by simp, Nat.zero_le N⟩

/-- C1: against a transport that accepts a formatted attempt exactly when
its body text has at most `N` characters (any `N ≥ 0`),
`NotificationService::send` terminates with a successful delivery whose
body text is a character-boundary prefix (`List.take` on the character
list) of the original text with at most `N` characters; every attempt,
initial and retries alike, is formatted with `Notification::format`. -/
theorem send_truncation_convergence (n : Notification) (N : Nat)
    (transport : Nat → String → SendResult)
    (H : ∀ (k : Nat) (t : String),
      transport k (Notification.format { n with text := t })
        = if t.length ≤ N then SendResult.ok else SendResult.tooLarge) :
    ∃ t m,
      (notification_send transport n).1 = SendFinal.delivered t
      ∧ t.data = n.text.data.take m ∧ t.length ≤ N := by
  unfold notification_send
  rw [H 0 n.text]
  by_cases hle : n.text.length ≤ N
  · rw [if_pos hle]
    exact ⟨n.text, n.text.data.length, rfl, (List.take_length n.text.data).symm, hle⟩
  · rw [if_neg hle]
    exact sendLoop_converges transport n N H n.text.utf8ByteSize 1

/-- Witness for C1: the threshold-6 message transport realises the
hypothesis for the notification `⟨"F", "A", "ab", []⟩` with `N = 1`
(the formatted message is `"F A: " ++ text`, five characters plus the body
text). -/
theorem send_truncation_convergence_witness :
    ∃ t m,
      (notification_send
          (fun _ msg => if msg.length ≤ 6 then SendResult.ok
            else SendResult.tooLarge)
          ⟨"F", "A", "ab", []⟩).1 = SendFinal.delivered t
      ∧ t.data = ("ab" : String).data.take m ∧ t.length ≤ 1 := by
  refine send_truncation_convergence ⟨"F", "A", "ab", []⟩ 1
    (fun _ msg => if msg.length ≤ 6 then SendResult.ok else SendResult.tooLarge)
    ?_
  intro k t
  have hfmt : Notification.format ⟨"F", "A", t, []⟩
      = if t.isEmpty then "F A" else "F A: " ++ t := rfl
  show (if (Notification.format ⟨"F", "A", t, []⟩).length ≤ 6
      then SendResult.ok else SendResult.tooLarge)
    = if t.length ≤ 1 then SendResult.ok else SendResult.tooLarge
  rw [hfmt]
  by_cases ht : t = ""
  · subst ht
    rfl
  · have hne : ¬(t.isEmpty = true) := fun hh => ht ((String.isEmpty_iff t).1 hh)
    rw [if_neg hne, String.length_append,
      show ("F A: " : String).length = 5 from rfl]
    by_cases h1 : t.length ≤ 1
    · rw [if_pos (by omega), if_pos h1]
    · rw [if_neg (by omega), if_neg h1]

/-! ## C10 — logarithmic attempt bound and termination -/

/-- Bound on the number of transport attempts the halving loop (plus its
final empty-text attempt) can make when entered with bound `high`. -/
def attemptBound (high : Nat) : Nat :=
  if high = 0 then 1 else Nat.log2 high + 2

/-- Halving strictly consumes the bound: one attempt plus the bound of the
halved counter stays within the bound of the current counter. -/
theorem attemptBound_step (high : Nat) (hp : 0 < high) :
    attemptBound (high / 2) + 1 ≤ attemptBound high := by
  by_cases h1 : high = 1
  · subst h1
    simp [attemptBound]
  · have h2 : 2 ≤ high := by omega
    have hhalf : high / 2 ≠ 0 := by omega
    have hlog : Nat.log2 (high / 2) + 1 ≤ Nat.log2 high := by
      rw [Nat.le_log2 (by omega)]
      have hpow : 2 ^ Nat.log2 (high / 2) ≤ high / 2 :=
        (Nat.le_log2 hhalf).1 (Nat.le_refl _)
      calc 2 ^ (Nat.log2 (high / 2) + 1)
          = 2 ^ Nat.log2 (high / 2) * 2 := by ring
        _ ≤ (high / 2) * 2 := by omega
        _ ≤ high := by omega
    simp only [attemptBound, if_neg hhalf, if_neg (show ¬high = 0 by omega)]
    omega

/-- The attempt counter of the halving loop grows by at most
`attemptBound high` over the entry value `k`, for every transport
behaviour. -/
theorem sendLoop_attempts_le (transport : Nat → String → SendResult)
    (n : Notification) :
    ∀ high k, (sendLoop transport n high k).2 ≤ k + attemptBound high := by
  intro high
  induction high using Nat.strong_induction_on with
  | _ high ih =>
    intro k
    rw [sendLoop]
    by_cases hp : 0 < high
    · rw [dif_pos hp]
      have hb := attemptBound_step high hp
      cases transport k (Notification.format
          { n with text := truncate_to_char_boundary n.text (high / 2) }) with
      | ok => simp only []; omega
      | tooLarge =>
        have := ih (high / 2) (Nat.div_lt_self hp (by decide)) (k + 1)
        simp only []
        omega
      | otherErr => simp only []; omega
    · have h0 : high = 0 := by omega
      subst h0
      rw [dif_neg hp]
      cases transport k (Notification.format { n with text := "" }) with
      | ok => simp [attemptBound]
      | tooLarge => simp [attemptBound]
      | otherErr => simp [attemptBound]

/-- C10: for every notification and every sequence of transport responses,
`NotificationService::send` terminates (the embedded loop is total, by
well-founded descent of the halving bound) after at most
`⌊log₂ (length of the body text)⌋ + 3` transport attempts, where the
length is the text's UTF-8 byte length — Rust `String::len`, the value the
code loads into the loop bound `high`.  This is `O(log n)` in the original
text length. -/
theorem send_attempt_bound (transport : Nat → String → SendResult)
    (n : Notification) :
    (notification_send transport n).2 ≤ Nat.log2 n.text.utf8ByteSize + 3 := by
  unfold notification_send
  have hb : attemptBound n.text.utf8ByteSize
      ≤ Nat.log2 n.text.utf8ByteSize + 2 := by
    by_cases h0 : n.text.utf8ByteSize = 0
    · simp [attemptBound, h0]
    · simp [attemptBound, h0]
  cases transport 0 (Notification.format { n with text := n.text }) with
  | ok => simp only []; omega
  | otherErr => simp only []; omega
  | tooLarge =>
    have := sendLoop_attempts_le transport n n.text.utf8ByteSize 1
    simp only []
    omega
